import Mathlib

/-!
Verification of the securesystemslib core: canonical JSON encoding
(`formats.py`), the software key model (`signer/_key.py`), and the
timestamp format helpers, shallowly embedded in Lean 4.
-/

set_option maxRecDepth 8000

namespace SSL

/-- The in-memory Python value model that `formats.py` operates on:
text strings, booleans, `None`, integers, floats (modelled by their
`repr` string, since the code only ever type-tests them and formats
them into error messages), byte strings, lists, and string-keyed
dicts (modelled as association lists in insertion order, as Python
dicts preserve insertion order; keys of a real dict are unique). -/
inductive PyVal where
  | str (s : String)
  | bool (b : Bool)
  | none
  | int (n : Int)
  | float (r : String)
  | bytes (bs : List Nat)
  | list (xs : List PyVal)
  | dict (xs : List (String × PyVal))

/-- Structural induction principle for `PyVal` giving the inductive
hypothesis at every element of a nested list / dict. -/
def PyVal.inductionOn {motive : PyVal → Prop}
    (hstr : ∀ s, motive (.str s))
    (hbool : ∀ b, motive (.bool b))
    (hnone : motive .none)
    (hint : ∀ n, motive (.int n))
    (hfloat : ∀ r, motive (.float r))
    (hbytes : ∀ bs, motive (.bytes bs))
    (hlist : ∀ xs, (∀ x ∈ xs, motive x) → motive (.list xs))
    (hdict : ∀ xs, (∀ kv ∈ xs, motive kv.2) → motive (.dict xs)) :
    ∀ v, motive v
  | .str s => hstr s
  | .bool b => hbool b
  | .none => hnone
  | .int n => hint n
  | .float r => hfloat r
  | .bytes bs => hbytes bs
  | .list xs => hlist xs (fun x hx =>
      have : sizeOf x < sizeOf (PyVal.list xs) := by
        have := List.sizeOf_lt_of_mem hx
        simp only [PyVal.list.sizeOf_spec]
        omega
      PyVal.inductionOn hstr hbool hnone hint hfloat hbytes hlist hdict x)
  | .dict xs => hdict xs (fun kv hkv =>
      have : sizeOf kv.2 < sizeOf (PyVal.dict xs) := by
        have h1 := List.sizeOf_lt_of_mem hkv
        have h2 : sizeOf kv.2 < sizeOf kv := by
          obtain ⟨a, b⟩ := kv
          show sizeOf b < sizeOf (a, b)
          simp only [Prod.mk.sizeOf_spec]
          omega
        simp only [PyVal.dict.sizeOf_spec]
        omega
      PyVal.inductionOn hstr hbool hnone hint hfloat hbytes hlist hdict kv.2)
termination_by v => sizeOf v
decreasing_by
  all_goals simp only [PyVal.list.sizeOf_spec, PyVal.dict.sizeOf_spec]
    at this ⊢
  all_goals omega

/-! ### Association-list operations mirroring Python `dict` -/

/-- `d[k]` lookup / `k in d` membership: first matching entry
(a real Python dict has unique keys). -/
def alookup (k : String) : List (String × PyVal) → Option PyVal
  | [] => Option.none
  | kv :: rest => if kv.1 = k then some kv.2 else alookup k rest

/-- Remove the entry for `k` (the first one), as `dict.pop` does. -/
def aerase (k : String) : List (String × PyVal) → List (String × PyVal)
  | [] => []
  | kv :: rest => if kv.1 = k then rest else kv :: aerase k rest

/-! ### Canonical JSON encoding (`formats.py`) -/

/-- The regex substitution in `_canonical_string_encoder` (pattern
a quote or backslash, replacement a backslash before the match):
prefix each quote or backslash character with a backslash, leaving
every other character alone. -/
def escapeChars : List Char → List Char
  | [] => []
  | c :: cs =>
    if c = '"' ∨ c = '\\' then '\\' :: c :: escapeChars cs
    else c :: escapeChars cs

/-- `_canonical_string_encoder(string)`: the escaped string wrapped
in double quotes. -/
def _canonical_string_encoder (s : String) : String :=
  "\"" ++ String.mk (escapeChars s.data) ++ "\""

/-- Decimal digit character. -/
def decDigit (n : Nat) : Char := Char.ofNat (48 + n)

/-- Digits of `n` in base 10, most significant first (fuel-indexed so
that the definition is structurally recursive; `n + 1` fuel always
suffices since a number has at most `n + 1` digits). -/
def natDigitsAux : Nat → Nat → List Char
  | 0, _ => []
  | fuel + 1, n =>
    if n < 10 then [decDigit n]
    else natDigitsAux fuel (n / 10) ++ [decDigit (n % 10)]

/-- Decimal representation of a natural number. -/
def natStr (n : Nat) : String := String.mk (natDigitsAux (n + 1) n)

/-- Python `str(object)` for an `int`: optional minus sign followed by
the decimal digits, no plus sign, no leading zeros. -/
def pyIntStr : Int → String
  | .ofNat m => natStr m
  | .negSucc m => "-" ++ natStr (m + 1)

/-- Python string comparison on character lists: lexicographic by
Unicode code point (which for UTF-8 encoded bytes coincides with
byte-wise lexicographic order). -/
def charsLe : List Char → List Char → Bool
  | [], _ => true
  | _ :: _, [] => false
  | c :: cs, d :: ds =>
    if c.toNat < d.toNat then true
    else if d.toNat < c.toNat then false
    else charsLe cs ds

/-- Python `a <= b` on strings. -/
def strLe (a b : String) : Bool := charsLe a.data b.data

/-- Ordering of dict items by key, the order `sorted` uses on the
`(key, value)` tuples of a dict (keys are unique, so the values are
never compared). -/
def pairLe (a b : String × PyVal) : Prop := strLe a.1 b.1 = true

instance : DecidableRel pairLe := fun a b =>
  (instDecidableEqBool (strLe a.1 b.1) true : Decidable (pairLe a b))

/-- Dict items sorted as `sorted(six.iteritems(object))` sorts them:
a stable sort of the items, by key. -/
def sortPairs (xs : List (String × PyVal)) : List (String × PyVal) :=
  List.insertionSort pairLe xs

/-- Spec-side description (§4.2): pieces "joined by `,`" (with no
trailing comma); used to state what the encoder emits. -/
def joinComma : List String → String
  | [] => ""
  | [s] => s
  | s :: rest => s ++ "," ++ joinComma rest

/-- Effectful map over a list, failing at the first failure (used to
state the per-element shape of what the encoder emits). -/
def mapExcept {α β : Type} (f : α → Except EncErr β) :
    List α → Except EncErr (List β)
  | [] => .ok []
  | x :: rest => do
    let b ← f x
    let bs ← mapExcept f rest
    .ok (b :: bs)

mutual
/-- The values accepted by the `isinstance` chain of
`_encode_canonical`, down
to every nested element: text strings, booleans, `None`, integers,
sequences and mappings; floats and byte strings fall through to its
`else` branch. -/
def encodable : PyVal → Bool
  | .str _ => true
  | .bool _ => true
  | .none => true
  | .int _ => true
  | .float _ => false
  | .bytes _ => false
  | .list xs => encodableList xs
  | .dict xs => encodablePairs xs

def encodableList : List PyVal → Bool
  | [] => true
  | x :: rest => encodable x && encodableList rest

def encodablePairs : List (String × PyVal) → Bool
  | [] => true
  | kv :: rest => encodable kv.2 && encodablePairs rest
end

/-- A value whose type falls outside the encodable Value model (the
`else` branch of `_encode_canonical`). -/
def isNonModelValue : PyVal → Bool
  | .float _ => true
  | .bytes _ => true
  | _ => false

/-- The string contains no whitespace character. -/
def noWsStr (s : String) : Bool := s.data.all (fun c => !c.isWhitespace)

mutual
/-- No text string (content or dict key) anywhere in the value
contains whitespace. -/
def valNoWs : PyVal → Bool
  | .str s => noWsStr s
  | .bool _ => true
  | .none => true
  | .int _ => true
  | .float _ => true
  | .bytes _ => true
  | .list xs => valNoWsList xs
  | .dict xs => valNoWsPairs xs

def valNoWsList : List PyVal → Bool
  | [] => true
  | x :: rest => valNoWs x && valNoWsList rest

def valNoWsPairs : List (String × PyVal) → Bool
  | [] => true
  | kv :: rest => noWsStr kv.1 && valNoWs kv.2 && valNoWsPairs rest
end

/-- The `FormatError` (message: `I cannot encode` plus the repr of
the object) raised by
`_encode_canonical` for a value outside the encodable model; the
offending value is kept structured rather than flattened to text. -/
inductive EncErr where
  | cannotEncode (v : PyVal)

mutual
/-- `_encode_canonical(object, output_function)`: emits the canonical
encoding of `object` chunk by chunk through the sink `out` (modelling
`output_function`, with the sink state threaded explicitly), or fails
with the `FormatError` for the first unencodable value encountered. -/
def _encode_canonical {σ : Type} (out : σ → String → σ) :
    PyVal → σ → Except EncErr σ
  | .str s, st => .ok (out st (_canonical_string_encoder s))
  | .bool true, st => .ok (out st "true")
  | .bool false, st => .ok (out st "false")
  | .none, st => .ok (out st "null")
  | .int n, st => .ok (out st (pyIntStr n))
  | .list xs, st0 =>
    let st1 := out st0 "["
    (match xs with
     | [] => .ok (out st1 "]")
     | x :: rest => do
       let st2 ← encSepList out (x :: rest) st1
       .ok (out st2 "]"))
  | .dict xs, st0 =>
    let st1 := out st0 "\x7b"
    (match xs with
     | [] => .ok (out st1 "\x7d")
     | x :: rest => do
       let st2 ← encSepPairs out (sortPairs (x :: rest)) st1
       .ok (out st2 "\x7d"))
  | .float r, _st => .error (.cannotEncode (.float r))
  | .bytes bs, _st => .error (.cannotEncode (.bytes bs))
termination_by v _st => sizeOf v
decreasing_by
  · simp only [PyVal.list.sizeOf_spec, List.cons.sizeOf_spec]
    omega
  · simp only [sortPairs, PyVal.dict.sizeOf_spec]
    rw [(List.perm_insertionSort pairLe _).sizeOf_eq_sizeOf]
    omega

/-- The `for item in object[:-1]: ... output_function(",")` loop of the
list case: encode the elements with `","` emitted between them. -/
def encSepList {σ : Type} (out : σ → String → σ) :
    List PyVal → σ → Except EncErr σ
  | [], st => .ok st
  | [x], st => _encode_canonical out x st
  | x :: y :: rest, st0 => do
    let st1 ← _encode_canonical out x st0
    encSepList out (y :: rest) (out st1 ",")
termination_by xs _st => sizeOf xs
decreasing_by
  all_goals simp only [List.cons.sizeOf_spec]
  all_goals omega

/-- The corresponding loop of the dict case: for each sorted item emit
the canonically encoded key, `":"`, the encoded value, and `","`
between consecutive items. -/
def encSepPairs {σ : Type} (out : σ → String → σ) :
    List (String × PyVal) → σ → Except EncErr σ
  | [], st => .ok st
  | [kv], st =>
    _encode_canonical out kv.2 (out (out st (_canonical_string_encoder kv.1)) ":")
  | kv :: kv2 :: rest, st0 => do
    let st1 ← _encode_canonical out kv.2
      (out (out st0 (_canonical_string_encoder kv.1)) ":")
    encSepPairs out (kv2 :: rest) (out st1 ",")
termination_by ps _st => sizeOf ps
decreasing_by
  all_goals obtain ⟨a, b⟩ := kv
  all_goals simp only [List.cons.sizeOf_spec, Prod.mk.sizeOf_spec]
  all_goals omega
end

/-- The sink used by `encode_canonical` when no `output_function` is
given: `result = []; output_function = result.append`. -/
def listSink : List String → String → List String := fun l c => l ++ [c]

/-- The raw one-shot encoding: run `_encode_canonical` with the
list-append sink and join the chunks into one string. -/
def encVal (v : PyVal) : Except EncErr String :=
  (_encode_canonical listSink v []).map String.join

/-- The outer `FormatError` (message: `Could not encode` plus the
repr of the object and the inner message) that `encode_canonical`
wraps helper failures in; again the formatted values are kept
structured. -/
inductive EncodeError where
  | couldNotEncode (top : PyVal) (inner : EncErr)

/-- `encode_canonical(object)` (no `output_function`): returns the
canonical JSON text of `object`, or the wrapped `FormatError`. -/
def encode_canonical (v : PyVal) : Except EncodeError String :=
  match _encode_canonical listSink v [] with
  | .ok l => .ok (String.join l)
  | .error e => .error (.couldNotEncode v e)

/-! ### Hex decoding (`bytes.fromhex`) -/

/-- Hex digit value of a character, if it is one. -/
def hexVal (c : Char) : Option Nat :=
  if '0' ≤ c ∧ c ≤ '9' then some (c.toNat - 48)
  else if 'a' ≤ c ∧ c ≤ 'f' then some (c.toNat - 87)
  else if 'A' ≤ c ∧ c ≤ 'F' then some (c.toNat - 55)
  else Option.none

/-- `bytes.fromhex` over the character list: pairs of hex digits with
ASCII spaces permitted between bytes; fails (`ValueError`) on a
non-hex character or a dangling single digit. -/
def fromhexChars : List Char → Option (List Nat)
  | [] => some []
  | ' ' :: rest => fromhexChars rest
  | c1 :: c2 :: rest =>
    match hexVal c1, hexVal c2 with
    | some h, some l => (fromhexChars rest).map (fun bs => (16 * h + l) :: bs)
    | _, _ => Option.none
  | [_] => Option.none

/-- `bytes.fromhex(s)`: `some` byte list, or `none` for the
`ValueError` it raises on malformed input. -/
def fromhex (s : String) : Option (List Nat) := fromhexChars s.data

/-! ### The software key (`signer/_key.py`) -/

/-- `Signature` object: `keyid` and the hex-encoded `signature`
field (named `sig` on the wire). -/
structure Signature where
  keyid : String
  signature : String

/-- `SSlibKey` instance attributes (`Key.__init__`): `keyval` is the
opaque key-material dict, `unrecognized_fields` everything the
implementation does not manage. -/
structure SSlibKey where
  keyid : String
  keytype : String
  scheme : String
  keyval : List (String × PyVal)
  unrecognized_fields : List (String × PyVal)

/-- Result of one call into an external cryptographic collaborator
(pyca/cryptography `verify`, or the vendored pure-Python ed25519
`checkvalid`): the signature verified, it was cryptographically
invalid (`InvalidSignature` / `SignatureMismatch`), or the call
raised some other exception carrying message `m` (bad PEM, wrong
lengths, ...). -/
inductive CryptoResult where
  | valid
  | invalid
  | exn (m : String)

/-- The external cryptographic collaborators of `verify_signature`,
abstracted as oracles.  `rsaVerify pem padding hash sig data` covers
`load_pem_public_key` + `RSAPublicKey.verify` (a load failure is an
`exn`), `ecdsaVerify pem hash sig data` likewise for ECDSA,
`ed25519Verify pub sig data` for `Ed25519PublicKey.from_public_bytes`
+ `verify`, and `checkvalid sig data pub` for the vendored
pure-Python fallback verifier. -/
structure CryptoOracle where
  rsaVerify : String → String → String → List Nat → List Nat → CryptoResult
  ecdsaVerify : String → String → List Nat → List Nat → CryptoResult
  ed25519Verify : List Nat → List Nat → List Nat → CryptoResult
  checkvalid : List Nat → List Nat → List Nat → CryptoResult

/-- Outcome of `SSlibKey.verify_signature`: success, an
`UnverifiedSignatureError` ("signature does not verify"), a
`VerificationError` ("verification could not be performed", carrying
the message and the `__cause__` text), or an uncaught builtin Python
exception escaping the method. -/
inductive VerifyOutcome where
  | ok
  | unverifiedError (msg : String)
  | verificationError (msg : String) (cause : String)
  | pyValueError (msg : String)

/-- A fixed collaborator assignment for evaluating the verifier at
concrete inputs: every call reports an exception. -/
def stubOracle : CryptoOracle where
  rsaVerify := fun _ _ _ _ _ => .exn "stub"
  ecdsaVerify := fun _ _ _ _ => .exn "stub"
  ed25519Verify := fun _ _ _ => .exn "stub"
  checkvalid := fun _ _ _ => .exn "stub"

/-- The outcome is an `UnverifiedSignatureError` ("signature does not
verify"). -/
def isUnverifiedOutcome : VerifyOutcome → Bool
  | .unverifiedError _ => true
  | _ => false

/-- The outcome is a `VerificationError` ("verification could not be
performed"). -/
def isVerificationErrorOutcome : VerifyOutcome → Bool
  | .verificationError _ _ => true
  | _ => false

/-- The outcome is an uncaught builtin exception, classified as
neither of the two advertised kinds. -/
def isPyErrorOutcome : VerifyOutcome → Bool
  | .pyValueError _ => true
  | _ => false

/-- The eight RSA schemes `verify_signature` accepts. -/
def rsaSchemes : List String :=
  ["rsassa-pss-sha224", "rsassa-pss-sha256", "rsassa-pss-sha384",
   "rsassa-pss-sha512", "rsa-pkcs1v15-sha224", "rsa-pkcs1v15-sha256",
   "rsa-pkcs1v15-sha384", "rsa-pkcs1v15-sha512"]

/-- The `UnverifiedSignatureError` message: `Failed to verify
signature by` plus the keyid. -/
def failedMsg (keyid : String) : String :=
  "Failed to verify signature by " ++ keyid

/-- The `VerificationError` message: `Unknown failure to verify
signature by` plus the keyid. -/
def unknownMsg (keyid : String) : String :=
  "Unknown failure to verify signature by " ++ keyid

/-- The `CRYPTO_IMPORT_ERROR` message. -/
def cryptoImportError : String :=
  "\x27pyca/cryptography\x27 library required"

/-- Map a crypto-collaborator call result through the
`except SignatureMismatch / InvalidSignature` and `except Exception`
handlers of `verify_signature`. -/
def handleResult (keyid : String) : CryptoResult → VerifyOutcome
  | .valid => .ok
  | .invalid => .unverifiedError (failedMsg keyid)
  | .exn m => .verificationError (unknownMsg keyid) m

/-- `self.keyval["public"]` followed by `bytes.fromhex` /
`.encode("utf-8")`: extract the public-key string, `none` modelling
the `KeyError` / non-string failure (caught by `except Exception`). -/
def publicStr (keyval : List (String × PyVal)) : Option String :=
  match alookup "public" keyval with
  | some (.str s) => some s
  | _ => Option.none

/-- `SSlibKey.verify_signature(self, signature, data)`, parameterized
by whether the pyca/cryptography import succeeded (`cryptoAvailable`,
i.e. `CRYPTO_IMPORT_ERROR is None`) and by the external crypto
collaborators `O`. -/
def verify_signature (cryptoAvailable : Bool) (O : CryptoOracle)
    (self : SSlibKey) (signature : Signature) (data : List Nat) :
    VerifyOutcome :=
  if signature.keyid ≠ self.keyid then
    -- raise VerificationError from ValueError(f"keyid mismatch: ...");
    -- the VerificationError itself carries no message, the cause does.
    .verificationError ""
      ("keyid mismatch: \x27key id: " ++ self.keyid ++
       " != signature keyid: " ++ signature.keyid ++ "\x27")
  else
    match fromhex signature.signature with
    | Option.none =>
      -- sig = bytes.fromhex(...) sits OUTSIDE both try blocks: the
      -- ValueError propagates uncaught.
      .pyValueError "non-hexadecimal number found in fromhex() arg"
    | some sig =>
      if cryptoAvailable = false then
        -- try: if scheme != ed25519 raise UnsupportedLibraryError ...
        if self.scheme ≠ "ed25519" then
          .verificationError (unknownMsg self.keyid) cryptoImportError
        else
          match publicStr self.keyval with
          | Option.none => .verificationError (unknownMsg self.keyid) ""
          | some pub =>
            match fromhex pub with
            | Option.none => .verificationError (unknownMsg self.keyid) ""
            | some public_bytes =>
              handleResult self.keyid (O.checkvalid sig data public_bytes)
      else
        if self.scheme ∈ rsaSchemes then
          match publicStr self.keyval with
          | Option.none => .verificationError (unknownMsg self.keyid) ""
          | some pem =>
            match (self.scheme.splitOn "-").drop 1 with
            | [padding_name, hash_name] =>
              handleResult self.keyid
                (O.rsaVerify pem padding_name hash_name sig data)
            | _ => .verificationError (unknownMsg self.keyid) ""
        else if self.scheme = "ecdsa-sha2-nistp256" ∨
            self.scheme = "ecdsa-sha2-nistp384" then
          match publicStr self.keyval with
          | Option.none => .verificationError (unknownMsg self.keyid) ""
          | some pem =>
            handleResult self.keyid
              (O.ecdsaVerify pem
                ("sha" ++ (self.scheme.drop (self.scheme.length - 3)))
                sig data)
        else if self.scheme = "ed25519" then
          match publicStr self.keyval with
          | Option.none => .verificationError (unknownMsg self.keyid) ""
          | some pub =>
            match fromhex pub with
            | Option.none => .verificationError (unknownMsg self.keyid) ""
            | some public_bytes =>
              handleResult self.keyid
                (O.ed25519Verify public_bytes sig data)
        else
          -- raise ValueError(f"unknown scheme ...") caught by except
          .verificationError (unknownMsg self.keyid)
            ("unknown scheme \x27" ++ self.scheme ++ "\x27")

/-! ### Key (de)serialization (`from_dict` / `to_dict`) -/

/-- Python exceptions raised by the deserialization paths. -/
inductive PyErr where
  | keyError (k : String)
  | typeError (m : String)
  | valueError (m : String)
  | formatError (m : String)

/-- `dict.pop(k)`: the value and the dict with that entry removed;
raises `KeyError` when absent. -/
def dictPop (k : String) (d : List (String × PyVal)) :
    Except PyErr (PyVal × List (String × PyVal)) :=
  match alookup k d with
  | some v => .ok (v, aerase k d)
  | Option.none => .error (.keyError k)

/-- Python `str(value)` as used in error message interpolation,
for the values that can reach it here. -/
def pyStr : PyVal → String
  | .str s => s
  | .int n => pyIntStr n
  | .bool true => "True"
  | .bool false => "False"
  | .none => "None"
  | _ => "<value>"

/-- `SSlibKey.from_dict(keyid, key_dict)`.  `Key._from_dict` pops
`keytype`, `scheme` and `keyval` off the very dict the caller passed
(mutating it); the remainder becomes `unrecognized_fields`.  The
result pairs the constructed key with the post-call state of the
dict of the caller. -/
def SSlibKey.from_dict (keyid : String) (key_dict : List (String × PyVal)) :
    Except PyErr (SSlibKey × List (String × PyVal)) := do
  let (ktv, d1) ← dictPop "keytype" key_dict
  let (scv, d2) ← dictPop "scheme" d1
  let (kvv, d3) ← dictPop "keyval" d2
  match kvv with
  | .dict kvd =>
    match alookup "public" kvd with
    | some (.str _) =>
      -- Key.__init__ type checks
      (match ktv, scv with
       | .str kt, .str sc =>
         .ok ({ keyid := keyid, keytype := kt, scheme := sc, keyval := kvd,
                unrecognized_fields := d3 }, d3)
       | _, _ => .error (.typeError "Unexpected Key attributes types!"))
    | _ => .error (.valueError
        ("public key string required for scheme " ++ pyStr scv))
  | _ =>
    -- `"public" not in keyval` raises TypeError on a non-dict keyval
    .error (.typeError "argument of wrong type for membership test")

/-- Python `{**base, **upd}` dict merge: keys of `base` keep their
position (values overridden by `upd` where present), then the keys of
`upd` not in `base` follow in their own order. -/
def dictMerge (base upd : List (String × PyVal)) :
    List (String × PyVal) :=
  (base.map (fun kv =>
    match alookup kv.1 upd with
    | some v => (kv.1, v)
    | Option.none => kv)) ++
  upd.filter (fun kv => (alookup kv.1 base).isNone)

/-- `SSlibKey.to_dict` = `Key._to_dict`:
`{"keytype": ..., "scheme": ..., "keyval": ..., **unrecognized}`. -/
def SSlibKey.to_dict (k : SSlibKey) : List (String × PyVal) :=
  dictMerge
    [("keytype", .str k.keytype), ("scheme", .str k.scheme),
     ("keyval", .dict k.keyval)]
    k.unrecognized_fields

/-! ### Timestamp helpers (`formats.py`) -/

/-- Modelled from the spec: the Schema Engine is not among the source
files, and §4.1 specifies `IntegerRange(lo, hi)`: "passes iff value
is an integer and lo ≤ v (≤ hi if hi given)". -/
structure IntegerSchema where
  lo : Option Int
  hi : Option Int

/-- Modelled from the spec: `matches` for `IntegerRange`. -/
def IntegerSchema.matches (sch : IntegerSchema) : PyVal → Bool
  | .int n =>
    (match sch.lo with
     | some lo => decide (lo ≤ n)
     | Option.none => true) &&
    (match sch.hi with
     | some hi => decide (n ≤ hi)
     | Option.none => true)
  | _ => false

/-- `UNIX_TIMESTAMP_SCHEMA = SCHEMA.Integer(lo=0, hi=2147483647)`. -/
def UNIX_TIMESTAMP_SCHEMA : IntegerSchema :=
  { lo := some 0, hi := some 2147483647 }

/-- The fields of the `datetime.datetime` object built by
`unix_timestamp_to_datetime` from the `struct_time` of
`time.gmtime`. -/
structure PyDatetime where
  year : Nat
  month : Nat
  day : Nat
  hour : Nat
  minute : Nat
  second : Nat
deriving DecidableEq

/-- `time.gmtime(t)` for `t ≥ 0`: UTC civil time of the POSIX
timestamp, via the standard closed-form days-to-civil conversion for
the proleptic Gregorian calendar (no timezone is consulted). -/
def gmtime (t : Nat) : PyDatetime :=
  let days := t / 86400
  let secs := t % 86400
  let z := days + 719468
  let era := z / 146097
  let doe := z % 146097
  let yoe := (doe - doe / 1460 + doe / 36524 - doe / 146096) / 365
  let doy := doe - (365 * yoe + yoe / 4 - yoe / 100)
  let mp := (5 * doy + 2) / 153
  let d := doy - (153 * mp + 2) / 5 + 1
  let m := if mp < 10 then mp + 3 else mp - 9
  let y := yoe + era * 400 + (if m ≤ 2 then 1 else 0)
  { year := y, month := m, day := d,
    hour := secs / 3600, minute := secs % 3600 / 60, second := secs % 60 }

/-- `unix_timestamp_to_datetime(unix_timestamp)`: `check_match`
against `UNIX_TIMESTAMP_SCHEMA` first (raising `FormatError`), then
`time.gmtime` (UTC, never the local timezone) and the `datetime`
constructor. -/
def unix_timestamp_to_datetime (v : PyVal) : Except PyErr PyDatetime :=
  if UNIX_TIMESTAMP_SCHEMA.matches v then
    match v with
    | .int n => .ok (gmtime n.toNat)
    | _ => .error (.formatError "unreachable: only integers match")
  else
    .error (.formatError "timestamp does not match UNIX_TIMESTAMP_SCHEMA")

/-! ## Lemmas about the canonical encoder -/

theorem foldl_listSink (l a : List String) :
    List.foldl listSink a l = a ++ l := by
  induction l generalizing a with
  | nil => simp [listSink]
  | cons c cs ih => simp [listSink, ih]

mutual
/-- Running the encoder with an arbitrary sink is the fold of the
chunk sequence produced with the list-append sink. -/
theorem fusion_val {σ : Type} (out : σ → String → σ) (v : PyVal) (st : σ) :
    _encode_canonical out v st =
      (_encode_canonical listSink v []).map (List.foldl out st) := by
  cases v with
  | str s => simp [_encode_canonical, listSink, Except.map]
  | bool b => cases b <;> simp [_encode_canonical, listSink, Except.map]
  | none => simp [_encode_canonical, listSink, Except.map]
  | int n => simp [_encode_canonical, listSink, Except.map]
  | float r => simp [_encode_canonical, Except.map]
  | bytes bs => simp [_encode_canonical, Except.map]
  | list xs =>
    cases xs with
    | nil => simp [_encode_canonical, listSink, Except.map]
    | cons x rest =>
      have h1 := fusion_list out (x :: rest) (out st "[")
      have h2 := fusion_list listSink (x :: rest) (listSink [] "[")
      simp only [_encode_canonical, h1, h2]
      cases hres : encSepList listSink (x :: rest) [] with
      | error e => simp [Except.map, bind, Except.bind]
      | ok l =>
        simp [Except.map, bind, Except.bind, listSink, foldl_listSink,
          List.foldl_append]
  | dict xs =>
    cases xs with
    | nil => simp [_encode_canonical, listSink, Except.map]
    | cons x rest =>
      have h1 := fusion_pairs out (sortPairs (x :: rest)) (out st "\x7b")
      have h2 := fusion_pairs listSink (sortPairs (x :: rest))
        (listSink [] "\x7b")
      simp only [_encode_canonical, h1, h2]
      cases hres : encSepPairs listSink (sortPairs (x :: rest)) [] with
      | error e => simp [Except.map, bind, Except.bind]
      | ok l =>
        simp [Except.map, bind, Except.bind, listSink, foldl_listSink,
          List.foldl_append]
termination_by sizeOf v
decreasing_by
  all_goals try simp only [sortPairs]
  all_goals try rw [(List.perm_insertionSort pairLe _).sizeOf_eq_sizeOf]
  all_goals simp only [PyVal.list.sizeOf_spec, PyVal.dict.sizeOf_spec,
    List.cons.sizeOf_spec]
  all_goals omega

theorem fusion_list {σ : Type} (out : σ → String → σ) (xs : List PyVal)
    (st : σ) :
    encSepList out xs st =
      (encSepList listSink xs []).map (List.foldl out st) := by
  match xs with
  | [] => simp [encSepList, Except.map]
  | [x] =>
    have h := fusion_val out x st
    simpa [encSepList] using h
  | x :: y :: rest =>
    have hx := fusion_val out x st
    have hx0 := fusion_val listSink x []
    simp only [encSepList, hx]
    cases hresx : _encode_canonical listSink x [] with
    | error e => simp [Except.map, bind, Except.bind]
    | ok lx =>
      have hy := fusion_list out (y :: rest)
        (out (List.foldl out st lx) ",")
      have hy0 := fusion_list listSink (y :: rest) (listSink lx ",")
      simp only [Except.map, bind, Except.bind, hy, hy0]
      cases hresy : encSepList listSink (y :: rest) [] with
      | error e => simp [Except.map]
      | ok ly =>
        simp [Except.map, listSink, foldl_listSink, List.foldl_append]
termination_by sizeOf xs
decreasing_by
  all_goals simp only [List.cons.sizeOf_spec]
  all_goals omega

theorem fusion_pairs {σ : Type} (out : σ → String → σ)
    (ps : List (String × PyVal)) (st : σ) :
    encSepPairs out ps st =
      (encSepPairs listSink ps []).map (List.foldl out st) := by
  match ps with
  | [] => simp [encSepPairs, Except.map]
  | [kv] =>
    have h := fusion_val out kv.2 (out (out st (_canonical_string_encoder kv.1)) ":")
    have h0 := fusion_val listSink kv.2
      (listSink (listSink [] (_canonical_string_encoder kv.1)) ":")
    simp only [encSepPairs, h, h0]
    cases hres : _encode_canonical listSink kv.2 [] with
    | error e => simp [Except.map]
    | ok l =>
      simp [Except.map, listSink, foldl_listSink, List.foldl_append]
  | kv :: kv2 :: rest =>
    have hx := fusion_val out kv.2
      (out (out st (_canonical_string_encoder kv.1)) ":")
    have hx0 := fusion_val listSink kv.2
      (listSink (listSink [] (_canonical_string_encoder kv.1)) ":")
    simp only [encSepPairs, hx, hx0]
    cases hresx : _encode_canonical listSink kv.2 [] with
    | error e => simp [Except.map, bind, Except.bind]
    | ok lx =>
      have hy := fusion_pairs out (kv2 :: rest)
        (out (List.foldl out (out (out st (_canonical_string_encoder kv.1)) ":") lx) ",")
      have hy0 := fusion_pairs listSink (kv2 :: rest)
        (listSink (List.foldl listSink (listSink (listSink [] (_canonical_string_encoder kv.1)) ":") lx) ",")
      simp only [Except.map, bind, Except.bind, hy, hy0]
      cases hresy : encSepPairs listSink (kv2 :: rest) [] with
      | error e => simp [Except.map]
      | ok ly =>
        simp [Except.map, listSink, foldl_listSink, List.foldl_append]
termination_by sizeOf ps
decreasing_by
  all_goals obtain ⟨a, b⟩ := kv
  all_goals simp only [List.cons.sizeOf_spec, Prod.mk.sizeOf_spec]
  all_goals omega
end

theorem foldl_strConcat (l : List String) (s : String) :
    List.foldl (fun a c => a ++ c) s l = s ++ String.join l := by
  induction l generalizing s with
  | nil => simp [String.join]
  | cons c cs ih =>
    simp only [List.foldl_cons]
    rw [ih (s ++ c)]
    have hj : String.join (c :: cs) = c ++ String.join cs := by
      show List.foldl (fun a b => a ++ b) ("" ++ c) cs = c ++ String.join cs
      rw [String.empty_append, ih c]
    rw [hj, String.append_assoc]

/-- The string-concatenation sink yields exactly the joined one-shot
output. -/
theorem encVal_eq_concat (v : PyVal) :
    _encode_canonical (fun a c => a ++ c) v "" = encVal v := by
  rw [fusion_val]
  unfold encVal
  cases _encode_canonical listSink v [] with
  | ok l => simp [Except.map, foldl_strConcat]
  | error e => simp [Except.map]

theorem mapExcept_ok_length {α β : Type} (f : α → Except EncErr β) :
    ∀ (xs : List α) (res : List β), mapExcept f xs = .ok res →
      res.length = xs.length := by
  intro xs
  induction xs with
  | nil =>
    intro res h
    simp only [mapExcept] at h
    cases h
    rfl
  | cons x t ih =>
    intro res h
    simp only [mapExcept, bind, Except.bind] at h
    cases hx : f x with
    | error e => rw [hx] at h; cases h
    | ok b =>
      rw [hx] at h
      cases ht : mapExcept f t with
      | error e => rw [ht] at h; cases h
      | ok bs =>
        rw [ht] at h
        cases h
        simp [ih bs ht]

theorem encSepList_concat (xs : List PyVal) (s : String) :
    encSepList (fun a c => a ++ c) xs s =
      (mapExcept encVal xs).map (fun parts => s ++ joinComma parts) := by
  induction xs generalizing s with
  | nil => simp [encSepList, joinComma, Except.map, mapExcept]
  | cons x rest ih =>
    cases rest with
    | nil =>
      simp only [encSepList, mapExcept]
      rw [fusion_val]
      cases hx : _encode_canonical listSink x [] with
      | error e => simp [Except.map, encVal, hx, bind, Except.bind]
      | ok l =>
        simp [Except.map, encVal, hx, bind, Except.bind, pure, Except.pure,
          joinComma, foldl_strConcat]
    | cons y rest2 =>
      simp only [encSepList, bind, Except.bind]
      rw [fusion_val]
      cases hx : _encode_canonical listSink x [] with
      | error e =>
        simp [Except.map, mapExcept, encVal, hx, bind, Except.bind]
      | ok lx =>
        simp only [Except.map, foldl_strConcat]
        rw [ih]
        cases hrest : mapExcept encVal (y :: rest2) with
        | error e =>
          simp only [mapExcept, bind, Except.bind] at hrest ⊢
          have hxval : encVal x = .ok (String.join lx) := by
            simp [encVal, hx, Except.map]
          simp [hxval, hrest, Except.map]
        | ok parts =>
          have hlen := mapExcept_ok_length encVal (y :: rest2) parts hrest
          cases parts with
          | nil => simp at hlen
          | cons p ps =>
            have hxval : encVal x = .ok (String.join lx) := by
              simp [encVal, hx, Except.map]
            simp only [mapExcept, bind, Except.bind] at hrest ⊢
            simp [hrest, hxval, Except.map, joinComma, String.append_assoc]

theorem encVal_list (xs : List PyVal) :
    encVal (.list xs) =
      (mapExcept encVal xs).map
        (fun parts => "[" ++ joinComma parts ++ "]") := by
  rw [← encVal_eq_concat]
  cases xs with
  | nil =>
    simp [_encode_canonical, mapExcept, Except.map, joinComma]
  | cons x rest =>
    simp only [_encode_canonical]
    rw [encSepList_concat]
    cases h : mapExcept encVal (x :: rest) with
    | error e => simp [h, Except.map, bind, Except.bind]
    | ok parts =>
      simp [h, Except.map, bind, Except.bind, pure, Except.pure,
        String.append_assoc]

/-- The per-item rendering of a dict entry: encoded key, `":"`, and
the one-shot encoding of the value. -/
theorem encSepPairs_concat (ps : List (String × PyVal)) (s : String) :
    encSepPairs (fun a c => a ++ c) ps s =
      (mapExcept (fun kv => (encVal kv.2).map
          (fun sv => _canonical_string_encoder kv.1 ++ ":" ++ sv)) ps).map
        (fun parts => s ++ joinComma parts) := by
  induction ps generalizing s with
  | nil => simp [encSepPairs, joinComma, Except.map, mapExcept]
  | cons kv rest ih =>
    cases rest with
    | nil =>
      simp only [encSepPairs, mapExcept]
      rw [fusion_val]
      cases hx : _encode_canonical listSink kv.2 [] with
      | error e => simp [Except.map, encVal, hx, bind, Except.bind]
      | ok l =>
        simp [Except.map, encVal, hx, bind, Except.bind, pure, Except.pure,
          joinComma, foldl_strConcat, String.append_assoc]
    | cons kv2 rest2 =>
      simp only [encSepPairs, bind, Except.bind]
      rw [fusion_val]
      cases hx : _encode_canonical listSink kv.2 [] with
      | error e =>
        simp [Except.map, mapExcept, encVal, hx, bind, Except.bind]
      | ok lx =>
        simp only [Except.map, foldl_strConcat]
        rw [ih]
        cases hrest : mapExcept (fun kv => (encVal kv.2).map
            (fun sv => _canonical_string_encoder kv.1 ++ ":" ++ sv))
            (kv2 :: rest2) with
        | error e =>
          have hxval : encVal kv.2 = .ok (String.join lx) := by
            simp [encVal, hx, Except.map]
          simp only [mapExcept, bind, Except.bind, Except.map] at hrest ⊢
          simp [hxval, hrest]
        | ok parts =>
          have hlen := mapExcept_ok_length _ (kv2 :: rest2) parts hrest
          cases parts with
          | nil => simp at hlen
          | cons p pps =>
            have hxval : encVal kv.2 = .ok (String.join lx) := by
              simp [encVal, hx, Except.map]
            simp only [mapExcept, bind, Except.bind, Except.map,
              String.append_assoc] at hrest ⊢
            simp [hrest, hxval, joinComma, String.append_assoc]

/-- The dict encoding: sorted items rendered `"key":value`, joined by
commas, in braces. -/
theorem encVal_dict (xs : List (String × PyVal)) :
    encVal (.dict xs) =
      (mapExcept (fun kv => (encVal kv.2).map
          (fun sv => _canonical_string_encoder kv.1 ++ ":" ++ sv))
          (sortPairs xs)).map
        (fun parts => "\x7b" ++ joinComma parts ++ "\x7d") := by
  rw [← encVal_eq_concat]
  cases xs with
  | nil =>
    simp [_encode_canonical, sortPairs, List.insertionSort, mapExcept,
      Except.map, joinComma]
  | cons x rest =>
    simp only [_encode_canonical]
    rw [encSepPairs_concat]
    cases h : mapExcept (fun kv => (encVal kv.2).map
        (fun sv => _canonical_string_encoder kv.1 ++ ":" ++ sv))
        (sortPairs (x :: rest)) with
    | error e => simp [h, Except.map, bind, Except.bind]
    | ok parts =>
      simp [h, Except.map, bind, Except.bind, pure, Except.pure,
        String.append_assoc]

/-! ## The item order is a total order, so sorting is canonical -/

theorem charsLe_total : ∀ a b, charsLe a b = true ∨ charsLe b a = true := by
  intro a
  induction a with
  | nil => intro b; left; cases b <;> simp [charsLe]
  | cons c cs ih =>
    intro b
    cases b with
    | nil => right; simp [charsLe]
    | cons d ds =>
      by_cases h1 : c.toNat < d.toNat
      · left; simp [charsLe, h1]
      · by_cases h2 : d.toNat < c.toNat
        · right; simp [charsLe, h2]
        · cases ih ds with
          | inl h => left; simp [charsLe, h1, h2, h]
          | inr h => right; simp [charsLe, h1, h2, h]

theorem charsLe_trans : ∀ a b c, charsLe a b = true → charsLe b c = true →
    charsLe a c = true := by
  intro a
  induction a with
  | nil => intro b c _ _; cases c <;> simp [charsLe]
  | cons x xs ih =>
    intro b c hab hbc
    cases b with
    | nil => simp [charsLe] at hab
    | cons y ys =>
      cases c with
      | nil => simp [charsLe] at hbc
      | cons z zs =>
        simp only [charsLe] at hab hbc ⊢
        have hab' : x.toNat < y.toNat ∨
            (x.toNat = y.toNat ∧ charsLe xs ys = true) := by
          by_cases h1 : x.toNat < y.toNat
          · exact .inl h1
          · by_cases h2 : y.toNat < x.toNat
            · rw [if_neg h1, if_pos h2] at hab; cases hab
            · refine .inr ⟨by omega, ?_⟩
              rwa [if_neg h1, if_neg h2] at hab
        have hbc' : y.toNat < z.toNat ∨
            (y.toNat = z.toNat ∧ charsLe ys zs = true) := by
          by_cases h1 : y.toNat < z.toNat
          · exact .inl h1
          · by_cases h2 : z.toNat < y.toNat
            · rw [if_neg h1, if_pos h2] at hbc; cases hbc
            · refine .inr ⟨by omega, ?_⟩
              rwa [if_neg h1, if_neg h2] at hbc
        rcases hab' with h1 | ⟨he1, hc1⟩
        · rcases hbc' with h2 | ⟨he2, hc2⟩
          · rw [if_pos (show x.toNat < z.toNat by omega)]
          · rw [if_pos (show x.toNat < z.toNat by omega)]
        · rcases hbc' with h2 | ⟨he2, hc2⟩
          · rw [if_pos (show x.toNat < z.toNat by omega)]
          · rw [if_neg (show ¬ x.toNat < z.toNat by omega),
              if_neg (show ¬ z.toNat < x.toNat by omega)]
            exact ih ys zs hc1 hc2

theorem charsLe_antisymm : ∀ a b, charsLe a b = true → charsLe b a = true →
    a = b := by
  intro a
  induction a with
  | nil => intro b _ hba; cases b with
    | nil => rfl
    | cons d ds => simp [charsLe] at hba
  | cons c cs ih =>
    intro b hab hba
    cases b with
    | nil => simp [charsLe] at hab
    | cons d ds =>
      simp only [charsLe] at hab hba
      by_cases h1 : c.toNat < d.toNat
      · by_cases h2 : d.toNat < c.toNat
        · omega
        · rw [if_neg h2, if_pos h1] at hba; cases hba
      · by_cases h2 : d.toNat < c.toNat
        · rw [if_neg h1, if_pos h2] at hab; cases hab
        · have hc : c = d := by
            apply Char.eq_of_val_eq
            apply UInt32.eq_of_toBitVec_eq
            apply BitVec.eq_of_toNat_eq
            show c.toNat = d.toNat
            omega
          simp only [h1, h2, if_neg, not_false_iff, if_false] at hab hba
          rw [hc, ih ds hab hba]

theorem strLe_total (a b : String) : strLe a b = true ∨ strLe b a = true :=
  charsLe_total a.data b.data

theorem strLe_trans {a b c : String} (h1 : strLe a b = true)
    (h2 : strLe b c = true) : strLe a c = true :=
  charsLe_trans a.data b.data c.data h1 h2

theorem strLe_antisymm {a b : String} (h1 : strLe a b = true)
    (h2 : strLe b a = true) : a = b := by
  apply String.ext
  exact charsLe_antisymm a.data b.data h1 h2

instance : IsTotal (String × PyVal) pairLe :=
  ⟨fun a b => strLe_total a.1 b.1⟩

instance : IsTrans (String × PyVal) pairLe :=
  ⟨fun _ _ _ hab hbc => strLe_trans hab hbc⟩

/-- Sorting a permutation of an association list with unique keys
gives the identical sorted list: the item order is antisymmetric on
lists with unique keys. -/
theorem sortPairs_perm_eq {l1 l2 : List (String × PyVal)}
    (hnd : (l1.map Prod.fst).Nodup) (hp : l1.Perm l2) :
    sortPairs l1 = sortPairs l2 := by
  have hperm : (sortPairs l1).Perm (sortPairs l2) :=
    (List.perm_insertionSort pairLe l1).trans
      (hp.trans (List.perm_insertionSort pairLe l2).symm)
  have hs1 : List.Sorted pairLe (sortPairs l1) :=
    List.sorted_insertionSort pairLe l1
  have hs2 : List.Sorted pairLe (sortPairs l2) :=
    List.sorted_insertionSort pairLe l2
  have hnd1 : ((sortPairs l1).map Prod.fst).Nodup :=
    (((List.perm_insertionSort pairLe l1).map Prod.fst).nodup_iff).mpr hnd
  have hnd2 : ((sortPairs l2).map Prod.fst).Nodup := by
    have h2 : (l2.map Prod.fst).Nodup := ((hp.map Prod.fst).nodup_iff).mp hnd
    exact (((List.perm_insertionSort pairLe l2).map Prod.fst).nodup_iff).mpr h2
  haveI : IsAntisymm (String × PyVal)
      (fun a b => pairLe a b ∧ a.1 ≠ b.1) :=
    ⟨fun a b hab hba => absurd (strLe_antisymm hab.1 hba.1) hab.2⟩
  have hstrict : ∀ (l : List (String × PyVal)),
      List.Sorted pairLe l → (l.map Prod.fst).Nodup →
      List.Pairwise (fun a b => pairLe a b ∧ a.1 ≠ b.1) l := by
    intro l hs hn
    have hne : List.Pairwise (fun a b : String × PyVal => a.1 ≠ b.1) l :=
      List.pairwise_map.mp hn
    exact hs.and hne
  exact List.eq_of_perm_of_sorted hperm
    (hstrict _ hs1 hnd1) (hstrict _ hs2 hnd2)

/-! ## Totality / error characterization of the encoder -/

theorem mapExcept_ok_forall {α β : Type} (f : α → Except EncErr β) :
    ∀ (xs : List α) (res : List β), mapExcept f xs = .ok res →
      ∀ x ∈ xs, ∃ b, f x = .ok b := by
  intro xs
  induction xs with
  | nil => intro res _ x hx; cases hx
  | cons y t ih =>
    intro res h x hx
    simp only [mapExcept, bind, Except.bind] at h
    cases hy : f y with
    | error e => rw [hy] at h; cases h
    | ok b =>
      rw [hy] at h
      cases ht : mapExcept f t with
      | error e => rw [ht] at h; cases h
      | ok bs =>
        rw [ht] at h
        cases hx with
        | head => exact ⟨b, hy⟩
        | tail _ hmem => exact ih bs ht x hmem

theorem mapExcept_ok_mem {α β : Type} (f : α → Except EncErr β) :
    ∀ (xs : List α) (res : List β), mapExcept f xs = .ok res →
      ∀ b ∈ res, ∃ x ∈ xs, f x = .ok b := by
  intro xs
  induction xs with
  | nil =>
    intro res h b hb
    simp only [mapExcept] at h
    cases h
    cases hb
  | cons y t ih =>
    intro res h b hb
    simp only [mapExcept, bind, Except.bind] at h
    cases hy : f y with
    | error e => rw [hy] at h; cases h
    | ok b0 =>
      rw [hy] at h
      cases ht : mapExcept f t with
      | error e => rw [ht] at h; cases h
      | ok bs =>
        rw [ht] at h
        cases h
        cases hb with
        | head => exact ⟨y, List.mem_cons_self y t, hy⟩
        | tail _ hmem =>
          obtain ⟨x, hx, hfx⟩ := ih bs ht b hmem
          exact ⟨x, List.mem_cons_of_mem y hx, hfx⟩

theorem mapExcept_err_shape {α β : Type} (f : α → Except EncErr β) :
    ∀ (xs : List α) (e : EncErr), mapExcept f xs = .error e →
      ∃ x ∈ xs, f x = .error e := by
  intro xs
  induction xs with
  | nil => intro e h; simp only [mapExcept] at h; cases h
  | cons y t ih =>
    intro e h
    simp only [mapExcept, bind, Except.bind] at h
    cases hy : f y with
    | error e0 =>
      rw [hy] at h
      cases h
      exact ⟨y, List.mem_cons_self y t, hy⟩
    | ok b =>
      rw [hy] at h
      cases ht : mapExcept f t with
      | error e0 =>
        rw [ht] at h
        cases h
        obtain ⟨x, hx, hfx⟩ := ih _ ht
        exact ⟨x, List.mem_cons_of_mem y hx, hfx⟩
      | ok bs => rw [ht] at h; cases h

theorem mapExcept_all_ok {α β : Type} (f : α → Except EncErr β) :
    ∀ (xs : List α), (∀ x ∈ xs, ∃ b, f x = .ok b) →
      ∃ res, mapExcept f xs = .ok res := by
  intro xs
  induction xs with
  | nil => intro _; exact ⟨[], rfl⟩
  | cons y t ih =>
    intro h
    obtain ⟨b, hb⟩ := h y (List.mem_cons_self y t)
    obtain ⟨bs, hbs⟩ := ih (fun x hx => h x (List.mem_cons_of_mem y hx))
    exact ⟨b :: bs, by simp [mapExcept, bind, Except.bind, hb, hbs]⟩

theorem encodableList_iff : ∀ xs, encodableList xs = true ↔
    ∀ x ∈ xs, encodable x = true := by
  intro xs
  induction xs with
  | nil => simp [encodableList]
  | cons y t ih => simp [encodableList, ih]

theorem encodablePairs_iff : ∀ xs, encodablePairs xs = true ↔
    ∀ kv ∈ xs, encodable kv.2 = true := by
  intro xs
  induction xs with
  | nil => simp [encodablePairs]
  | cons y t ih => simp [encodablePairs, ih]

/-- `_encode_canonical` succeeds exactly on the Value model and its
failure names a value of the offending type. -/
theorem encVal_total : ∀ v : PyVal,
    (encodable v = true → ∃ s, encVal v = .ok s) ∧
    (encodable v = false → ∃ w, isNonModelValue w = true ∧
      encVal v = .error (.cannotEncode w)) := by
  intro v
  induction v using PyVal.inductionOn with
  | hstr s =>
    refine ⟨fun _ => ⟨_canonical_string_encoder s, ?_⟩, fun h => ?_⟩
    · simp [encVal, _encode_canonical, listSink, Except.map, String.join]
    · simp [encodable] at h
  | hbool b =>
    refine ⟨fun _ => ?_, fun h => by simp [encodable] at h⟩
    cases b
    · exact ⟨"false", by simp [encVal, _encode_canonical, listSink,
        Except.map, String.join]⟩
    · exact ⟨"true", by simp [encVal, _encode_canonical, listSink,
        Except.map, String.join]⟩
  | hnone =>
    refine ⟨fun _ => ⟨"null", ?_⟩, fun h => by simp [encodable] at h⟩
    simp [encVal, _encode_canonical, listSink, Except.map, String.join]
  | hint n =>
    refine ⟨fun _ => ⟨pyIntStr n, ?_⟩, fun h => by simp [encodable] at h⟩
    simp [encVal, _encode_canonical, listSink, Except.map, String.join]
  | hfloat r =>
    refine ⟨fun h => by simp [encodable] at h, fun _ => ⟨.float r, rfl, ?_⟩⟩
    simp [encVal, _encode_canonical, Except.map]
  | hbytes bs =>
    refine ⟨fun h => by simp [encodable] at h, fun _ => ⟨.bytes bs, rfl, ?_⟩⟩
    simp [encVal, _encode_canonical, Except.map]
  | hlist xs ih =>
    constructor
    · intro h
      have hall : ∀ x ∈ xs, encodable x = true :=
        (encodableList_iff xs).mp (by simpa [encodable] using h)
      obtain ⟨res, hres⟩ := mapExcept_all_ok encVal xs
        (fun x hx => (ih x hx).1 (hall x hx))
      exact ⟨_, by rw [encVal_list, hres]; rfl⟩
    · intro h
      have hnot : ¬ ∀ x ∈ xs, encodable x = true := by
        intro hall
        have := (encodableList_iff xs).mpr hall
        simp only [encodable] at h
        rw [h] at this
        cases this
      have hex : ∃ x ∈ xs, encodable x = false := by
        by_contra hc
        push_neg at hc
        exact hnot (fun x hx => by
          have := hc x hx
          cases henc : encodable x
          · exact absurd henc this
          · rfl)
      obtain ⟨x0, hx0, hx0f⟩ := hex
      cases hmap : mapExcept encVal xs with
      | ok res =>
        obtain ⟨b, hb⟩ := mapExcept_ok_forall encVal xs res hmap x0 hx0
        obtain ⟨w, _, herr⟩ := (ih x0 hx0).2 hx0f
        rw [herr] at hb
        cases hb
      | error e =>
        obtain ⟨x1, hx1, hx1e⟩ := mapExcept_err_shape encVal xs e hmap
        have hx1f : encodable x1 = false := by
          cases henc : encodable x1
          · rfl
          · obtain ⟨b, hb⟩ := (ih x1 hx1).1 henc
            rw [hb] at hx1e
            cases hx1e
        obtain ⟨w, hw, herr⟩ := (ih x1 hx1).2 hx1f
        rw [herr] at hx1e
        injection hx1e with he
        refine ⟨w, hw, ?_⟩
        rw [encVal_list, hmap, ← he]
        rfl
  | hdict xs ih =>
    constructor
    · intro h
      have hall : ∀ kv ∈ xs, encodable kv.2 = true :=
        (encodablePairs_iff xs).mp (by simpa [encodable] using h)
      have hall' : ∀ kv ∈ sortPairs xs, ∃ b,
          (encVal kv.2).map
            (fun sv => _canonical_string_encoder kv.1 ++ ":" ++ sv) =
          .ok b := by
        intro kv hkv
        have hmem : kv ∈ xs :=
          ((List.perm_insertionSort pairLe xs).mem_iff).mp hkv
        obtain ⟨s, hs⟩ := (ih kv hmem).1 (hall kv hmem)
        exact ⟨_, by rw [hs]; rfl⟩
      obtain ⟨res, hres⟩ := mapExcept_all_ok _ (sortPairs xs) hall'
      exact ⟨_, by rw [encVal_dict, hres]; rfl⟩
    · intro h
      have hnot : ¬ ∀ kv ∈ xs, encodable kv.2 = true := by
        intro hall
        have := (encodablePairs_iff xs).mpr hall
        simp only [encodable] at h
        rw [h] at this
        cases this
      have hex : ∃ kv ∈ xs, encodable kv.2 = false := by
        by_contra hc
        push_neg at hc
        exact hnot (fun kv hkv => by
          have := hc kv hkv
          cases henc : encodable kv.2
          · exact absurd henc this
          · rfl)
      obtain ⟨kv0, hkv0, hkv0f⟩ := hex
      have hkv0s : kv0 ∈ sortPairs xs :=
        ((List.perm_insertionSort pairLe xs).mem_iff).mpr hkv0
      cases hmap : mapExcept (fun kv => (encVal kv.2).map
          (fun sv => _canonical_string_encoder kv.1 ++ ":" ++ sv))
          (sortPairs xs) with
      | ok res =>
        obtain ⟨b, hb⟩ := mapExcept_ok_forall _ (sortPairs xs) res hmap
          kv0 hkv0s
        obtain ⟨w, _, herr⟩ := (ih kv0 hkv0).2 hkv0f
        rw [herr] at hb
        cases hb
      | error e =>
        obtain ⟨kv1, hkv1, hkv1e⟩ := mapExcept_err_shape _ (sortPairs xs)
          e hmap
        have hkv1x : kv1 ∈ xs :=
          ((List.perm_insertionSort pairLe xs).mem_iff).mp hkv1
        have hkv1f : encodable kv1.2 = false := by
          cases henc : encodable kv1.2
          · rfl
          · obtain ⟨b, hb⟩ := (ih kv1 hkv1x).1 henc
            rw [hb] at hkv1e
            cases hkv1e
        obtain ⟨w, hw, herr⟩ := (ih kv1 hkv1x).2 hkv1f
        rw [herr] at hkv1e
        injection hkv1e with he
        refine ⟨w, hw, ?_⟩
        rw [encVal_dict, hmap, ← he]
        rfl

/-! ## No whitespace is ever emitted -/

theorem str_data_append (a b : String) : (a ++ b).data = a.data ++ b.data :=
  rfl

theorem noWsStr_append (a b : String) :
    noWsStr (a ++ b) = (noWsStr a && noWsStr b) := by
  simp [noWsStr, str_data_append, List.all_append]

theorem escapeChars_mem : ∀ (cs : List Char) (c : Char),
    c ∈ escapeChars cs → c = '\\' ∨ c ∈ cs := by
  intro cs
  induction cs with
  | nil => intro c hc; cases hc
  | cons d ds ih =>
    intro c hc
    simp only [escapeChars] at hc
    by_cases hd : d = '"' ∨ d = '\\'
    · rw [if_pos hd] at hc
      simp only [List.mem_cons] at hc
      rcases hc with h | h | h
      · exact .inl h
      · exact .inr (by simp [h])
      · rcases ih c h with h2 | h2
        · exact .inl h2
        · exact .inr (List.mem_cons_of_mem d h2)
    · rw [if_neg hd] at hc
      simp only [List.mem_cons] at hc
      rcases hc with h | h
      · exact .inr (by simp [h])
      · rcases ih c h with h2 | h2
        · exact .inl h2
        · exact .inr (List.mem_cons_of_mem d h2)

theorem canonical_string_encoder_noWs (s : String) (h : noWsStr s = true) :
    noWsStr (_canonical_string_encoder s) = true := by
  unfold _canonical_string_encoder
  rw [noWsStr_append, noWsStr_append]
  have hq : noWsStr "\"" = true := by decide
  have hesc : noWsStr (String.mk (escapeChars s.data)) = true := by
    simp only [noWsStr, List.all_eq_true] at h ⊢
    intro c hc
    rcases escapeChars_mem s.data c hc with h2 | h2
    · subst h2; decide
    · exact h c h2
  simp [hq, hesc]

theorem natDigitsAux_mem : ∀ (fuel n : Nat) (c : Char),
    c ∈ natDigitsAux fuel n → ∃ m, m < 10 ∧ c = decDigit m := by
  intro fuel
  induction fuel with
  | zero => intro n c hc; cases hc
  | succ f ih =>
    intro n c hc
    simp only [natDigitsAux] at hc
    by_cases hn : n < 10
    · rw [if_pos hn] at hc
      simp only [List.mem_singleton] at hc
      exact ⟨n, hn, hc⟩
    · rw [if_neg hn] at hc
      rcases List.mem_append.mp hc with h | h
      · exact ih (n / 10) c h
      · simp only [List.mem_singleton] at h
        exact ⟨n % 10, Nat.mod_lt n (by omega), h⟩

theorem decDigit_not_ws (m : Nat) (hm : m < 10) :
    (decDigit m).isWhitespace = false := by
  interval_cases m <;> decide

theorem natStr_noWs (n : Nat) : noWsStr (natStr n) = true := by
  simp only [natStr, noWsStr, List.all_eq_true]
  intro c hc
  obtain ⟨m, hm, rfl⟩ := natDigitsAux_mem (n + 1) n c hc
  simp [decDigit_not_ws m hm]

theorem pyIntStr_noWs (n : Int) : noWsStr (pyIntStr n) = true := by
  cases n with
  | ofNat m => exact natStr_noWs m
  | negSucc m =>
    simp only [pyIntStr]
    rw [noWsStr_append]
    have h1 : noWsStr "-" = true := by decide
    simp [h1, natStr_noWs]

theorem joinComma_noWs : ∀ parts : List String,
    (∀ p ∈ parts, noWsStr p = true) → noWsStr (joinComma parts) = true := by
  intro parts
  induction parts with
  | nil => intro _; decide
  | cons p rest ih =>
    intro h
    cases rest with
    | nil => exact h p (by simp [joinComma])
    | cons q rest2 =>
      simp only [joinComma]
      rw [noWsStr_append, noWsStr_append]
      have hp : noWsStr p = true := h p (by simp)
      have hc : noWsStr "," = true := by decide
      have hrest : noWsStr (joinComma (q :: rest2)) = true :=
        ih (fun x hx => h x (List.mem_cons_of_mem p hx))
      simp [hp, hc, hrest]

theorem valNoWsList_iff : ∀ xs, valNoWsList xs = true ↔
    ∀ x ∈ xs, valNoWs x = true := by
  intro xs
  induction xs with
  | nil => simp [valNoWsList]
  | cons y t ih => simp [valNoWsList, ih]

theorem valNoWsPairs_iff : ∀ xs, valNoWsPairs xs = true ↔
    ∀ kv ∈ xs, noWsStr kv.1 = true ∧ valNoWs kv.2 = true := by
  intro xs
  induction xs with
  | nil => simp [valNoWsPairs]
  | cons y t ih => simp [valNoWsPairs, ih, and_assoc]

/-- If no string inside `v` contains whitespace, the canonical
encoding of `v` contains no whitespace: the encoder itself never
emits any. -/
theorem encVal_noWs : ∀ v : PyVal, valNoWs v = true →
    ∀ s, encVal v = .ok s → noWsStr s = true := by
  intro v
  induction v using PyVal.inductionOn with
  | hstr s0 =>
    intro h s hok
    simp only [encVal, _encode_canonical, listSink, Except.map] at hok
    injection hok with hs
    rw [← hs]
    have : String.join [_canonical_string_encoder s0] =
        _canonical_string_encoder s0 := by
      simp [String.join]
    rw [show ([] : List String) ++ [_canonical_string_encoder s0] =
      [_canonical_string_encoder s0] from rfl, this]
    exact canonical_string_encoder_noWs s0 (by simpa [valNoWs] using h)
  | hbool b =>
    intro _ s hok
    cases b <;>
      simp only [encVal, _encode_canonical, listSink, Except.map] at hok <;>
      injection hok with hs <;>
      rw [← hs] <;> decide
  | hnone =>
    intro _ s hok
    simp only [encVal, _encode_canonical, listSink, Except.map] at hok
    injection hok with hs
    rw [← hs]
    decide
  | hint n =>
    intro _ s hok
    simp only [encVal, _encode_canonical, listSink, Except.map] at hok
    injection hok with hs
    rw [← hs]
    have : String.join ([] ++ [pyIntStr n]) = pyIntStr n := by
      simp [String.join]
    rw [this]
    exact pyIntStr_noWs n
  | hfloat r =>
    intro _ s hok
    simp [encVal, _encode_canonical, Except.map] at hok
  | hbytes bs =>
    intro _ s hok
    simp [encVal, _encode_canonical, Except.map] at hok
  | hlist xs ih =>
    intro h s hok
    rw [encVal_list] at hok
    cases hmap : mapExcept encVal xs with
    | error e => rw [hmap] at hok; cases hok
    | ok parts =>
      rw [hmap] at hok
      injection hok with hs
      rw [← hs]
      have hparts : ∀ p ∈ parts, noWsStr p = true := by
        intro p hp
        obtain ⟨x, hx, hfx⟩ := mapExcept_ok_mem encVal xs parts hmap p hp
        have hxws : valNoWs x = true :=
          (valNoWsList_iff xs).mp (by simpa [valNoWs] using h) x hx
        exact ih x hx hxws p hfx
      rw [noWsStr_append, noWsStr_append]
      have h1 : noWsStr "[" = true := by decide
      have h2 : noWsStr "]" = true := by decide
      simp [h1, h2, joinComma_noWs parts hparts]
  | hdict xs ih =>
    intro h s hok
    rw [encVal_dict] at hok
    cases hmap : mapExcept (fun kv => (encVal kv.2).map
        (fun sv => _canonical_string_encoder kv.1 ++ ":" ++ sv))
        (sortPairs xs) with
    | error e => rw [hmap] at hok; cases hok
    | ok parts =>
      rw [hmap] at hok
      injection hok with hs
      rw [← hs]
      have hparts : ∀ p ∈ parts, noWsStr p = true := by
        intro p hp
        obtain ⟨kv, hkv, hfkv⟩ := mapExcept_ok_mem _ (sortPairs xs) parts
          hmap p hp
        have hkvx : kv ∈ xs :=
          ((List.perm_insertionSort pairLe xs).mem_iff).mp hkv
        have hws := (valNoWsPairs_iff xs).mp (by simpa [valNoWs] using h)
          kv hkvx
        cases hval : encVal kv.2 with
        | error e => rw [hval] at hfkv; cases hfkv
        | ok sv =>
          rw [hval] at hfkv
          injection hfkv with hp2
          rw [← hp2]
          rw [noWsStr_append, noWsStr_append]
          have hk : noWsStr (_canonical_string_encoder kv.1) = true :=
            canonical_string_encoder_noWs kv.1 hws.1
          have hcolon : noWsStr ":" = true := by decide
          have hsv : noWsStr sv = true := ih kv hkvx hws.2 sv hval
          simp [hk, hcolon, hsv]
      rw [noWsStr_append, noWsStr_append]
      have h1 : noWsStr "\x7b" = true := by decide
      have h2 : noWsStr "\x7d" = true := by decide
      simp [h1, h2, joinComma_noWs parts hparts]

/-! ## Association-list lemmas for the key model -/

theorem alookup_aerase_ne (k k' : String) (hne : k' ≠ k) :
    ∀ d : List (String × PyVal), alookup k' (aerase k d) = alookup k' d := by
  intro d
  induction d with
  | nil => rfl
  | cons kv rest ih =>
    simp only [alookup, aerase]
    by_cases h1 : kv.1 = k
    · rw [if_pos h1, if_neg (by rw [h1]; exact fun he => hne he.symm)]
    · rw [if_neg h1]
      by_cases h2 : kv.1 = k'
      · simp only [alookup, if_pos h2]
      · simp only [alookup, if_neg h2, ih]

theorem alookup_eq_none_of_not_mem (k : String) :
    ∀ d : List (String × PyVal), k ∉ d.map Prod.fst →
      alookup k d = Option.none := by
  intro d
  induction d with
  | nil => intro _; rfl
  | cons kv rest ih =>
    intro h
    simp only [List.map_cons, List.mem_cons] at h
    push_neg at h
    simp only [alookup]
    rw [if_neg (fun he : kv.1 = k => h.1 he.symm)]
    exact ih h.2

theorem alookup_aerase_self (k : String) :
    ∀ d : List (String × PyVal), (d.map Prod.fst).Nodup →
      alookup k (aerase k d) = Option.none := by
  intro d
  induction d with
  | nil => intro _; rfl
  | cons kv rest ih =>
    intro hnd
    simp only [List.map_cons, List.nodup_cons] at hnd
    simp only [aerase]
    by_cases h1 : kv.1 = k
    · rw [if_pos h1]
      exact alookup_eq_none_of_not_mem k rest (h1 ▸ hnd.1)
    · rw [if_neg h1]
      simp only [alookup, if_neg h1]
      exact ih hnd.2

theorem alookup_append_of_absent (k : String)
    (l1 l2 : List (String × PyVal)) (h : ∀ kv ∈ l1, kv.1 ≠ k) :
    alookup k (l1 ++ l2) = alookup k l2 := by
  induction l1 with
  | nil => rfl
  | cons kv rest ih =>
    simp only [List.cons_append, alookup,
      if_neg (h kv (List.mem_cons_self kv rest))]
    exact ih (fun kv2 h2 => h kv2 (List.mem_cons_of_mem kv h2))

theorem alookup_filter (k : String) (p : String × PyVal → Bool)
    (hp : ∀ kv : String × PyVal, kv.1 = k → p kv = true) :
    ∀ d : List (String × PyVal),
      alookup k (d.filter p) = alookup k d := by
  intro d
  induction d with
  | nil => rfl
  | cons kv rest ih =>
    by_cases h1 : kv.1 = k
    · rw [List.filter_cons_of_pos (hp kv h1)]
      simp only [alookup, if_pos h1]
    · by_cases h2 : p kv = true
      · rw [List.filter_cons_of_pos h2]
        simp only [alookup, if_neg h1, ih]
      · rw [List.filter_cons_of_neg (by simpa using h2)]
        simp only [alookup, if_neg h1, ih]

/-- Decomposition of a successful `SSlibKey.from_dict` call: which
entries it read, which key it built, and the post-state of the
dict of the caller. -/
theorem from_dict_ok {keyid : String} {d : List (String × PyVal)}
    {k : SSlibKey} {drest : List (String × PyVal)}
    (h : SSlibKey.from_dict keyid d = .ok (k, drest)) :
    alookup "keytype" d = some (.str k.keytype) ∧
    alookup "scheme" (aerase "keytype" d) = some (.str k.scheme) ∧
    alookup "keyval" (aerase "scheme" (aerase "keytype" d)) =
      some (.dict k.keyval) ∧
    drest = aerase "keyval" (aerase "scheme" (aerase "keytype" d)) ∧
    k.unrecognized_fields = drest ∧
    k.keyid = keyid := by
  simp only [SSlibKey.from_dict, dictPop, bind, Except.bind] at h
  cases h1 : alookup "keytype" d with
  | none => simp [h1] at h
  | some ktv =>
    simp only [h1] at h
    cases h2 : alookup "scheme" (aerase "keytype" d) with
    | none => simp [h2] at h
    | some scv =>
      simp only [h2] at h
      cases h3 : alookup "keyval" (aerase "scheme" (aerase "keytype" d)) with
      | none => simp [h3] at h
      | some kvv =>
        simp only [h3] at h
        cases kvv with
        | dict kvd =>
          cases h4 : alookup "public" kvd with
          | none => simp [h4] at h
          | some pubv =>
            simp only [h4] at h
            cases pubv with
            | str pub =>
              cases ktv with
              | str kt =>
                cases scv with
                | str sc =>
                  simp only at h
                  injection h with hpair
                  obtain ⟨hk, hrest⟩ := Prod.mk.inj hpair
                  subst hrest
                  rw [← hk]
                  exact ⟨rfl, rfl, rfl, rfl, rfl, rfl⟩
                | bool b => simp at h
                | none => simp at h
                | int n => simp at h
                | float r => simp at h
                | bytes bs => simp at h
                | list xs => simp at h
                | dict xs => simp at h
              | bool b => simp at h
              | none => simp at h
              | int n => simp at h
              | float r => simp at h
              | bytes bs => simp at h
              | list xs => simp at h
              | dict xs => simp at h
            | bool b => simp at h
            | none => simp at h
            | int n => simp at h
            | float r => simp at h
            | bytes bs => simp at h
            | list xs => simp at h
            | dict xs => simp at h
        | str s => simp at h
        | bool b => simp at h
        | none => simp at h
        | int n => simp at h
        | float r => simp at h
        | bytes bs => simp at h
        | list xs => simp at h

/-! ## Bridging lemmas between `encode_canonical` and its helper -/

theorem encode_canonical_ok_iff (v : PyVal) (s : String) :
    encode_canonical v = .ok s ↔ encVal v = .ok s := by
  unfold encode_canonical encVal
  cases _encode_canonical listSink v [] <;> simp [Except.map]

theorem escapeChars_flatMap : ∀ cs : List Char,
    escapeChars cs = cs.flatMap (fun c =>
      if c = '"' ∨ c = '\\' then ['\\', c] else [c]) := by
  intro cs
  induction cs with
  | nil => rfl
  | cons c rest ih =>
    simp only [escapeChars, List.flatMap_cons]
    by_cases hc : c = '"' ∨ c = '\\'
    · rw [if_pos hc, if_pos hc, ih]
      rfl
    · rw [if_neg hc, if_neg hc, ih]
      rfl

/-! ## The claims -/

/-- C4: For any two mappings containing the same key-value pairs in
different insertion orders, `encode_canonical` produces byte-identical
output: the encoding of a mapping renders its keys in lexically
ascending (byte-wise) order as `"key":value` pairs joined by `,`,
wrapped in braces, with the empty mapping encoded as two braces and no
whitespace ever emitted (no string of the mapping containing
whitespace, none appears in the output). -/
theorem claim_C4 :
    (∀ l1 l2 : List (String × PyVal), (l1.map Prod.fst).Nodup →
      l1.Perm l2 → encVal (.dict l1) = encVal (.dict l2)) ∧
    (∀ l1 l2 : List (String × PyVal), (l1.map Prod.fst).Nodup →
      l1.Perm l2 → ∀ s, encode_canonical (.dict l1) = .ok s ↔
        encode_canonical (.dict l2) = .ok s) ∧
    encode_canonical (.dict []) = .ok "\x7b\x7d" ∧
    (∀ l : List (String × PyVal),
      encVal (.dict l) =
        (mapExcept (fun kv => (encVal kv.2).map
            (fun sv => _canonical_string_encoder kv.1 ++ ":" ++ sv))
            (sortPairs l)).map
          (fun parts => "\x7b" ++ joinComma parts ++ "\x7d")) ∧
    (∀ l : List (String × PyVal), List.Sorted pairLe (sortPairs l)) ∧
    (∀ (l : List (String × PyVal)) (s : String),
      valNoWs (.dict l) = true → encVal (.dict l) = .ok s →
      noWsStr s = true) := by
  have hdet : ∀ l1 l2 : List (String × PyVal), (l1.map Prod.fst).Nodup →
      l1.Perm l2 → encVal (.dict l1) = encVal (.dict l2) := by
    intro l1 l2 hnd hp
    rw [encVal_dict, encVal_dict, sortPairs_perm_eq hnd hp]
  refine ⟨hdet, ?_, ?_, encVal_dict, ?_, ?_⟩
  · intro l1 l2 hnd hp s
    rw [encode_canonical_ok_iff, encode_canonical_ok_iff, hdet l1 l2 hnd hp]
  · simp [encode_canonical, _encode_canonical, listSink, String.join]
  · intro l
    exact List.sorted_insertionSort pairLe l
  · intro l s h hok
    exact encVal_noWs (.dict l) h s hok

/-- C4 witness: two concrete two-entry mappings in opposite insertion
orders encode identically. -/
theorem claim_C4_witness :
    encVal (.dict [("b", PyVal.int 3), ("a", PyVal.int 4)]) =
      encVal (.dict [("a", PyVal.int 4), ("b", PyVal.int 3)]) :=
  claim_C4.1 _ _ (by decide)
    (List.Perm.swap ("a", PyVal.int 4) ("b", PyVal.int 3) [])

/-- C5: every text string is encoded by wrapping it in double quotes
and escaping exactly `"` and `\` by prefixing `\`, altering no other
character (not even control characters); the 5-character string
`a"b\c` encodes to the 9-character `"a\"b\\c"`. -/
theorem claim_C5 :
    (∀ s : String, (_canonical_string_encoder s).data =
      '"' :: (s.data.flatMap (fun c =>
        if c = '"' ∨ c = '\\' then ['\\', c] else [c])) ++ ['"']) ∧
    (∀ s : String,
      encode_canonical (.str s) = .ok (_canonical_string_encoder s)) ∧
    String.length "a\"b\\c" = 5 ∧
    _canonical_string_encoder "a\"b\\c" = "\"a\\\"b\\\\c\"" ∧
    (_canonical_string_encoder "a\"b\\c").length = 9 ∧
    _canonical_string_encoder "\x01" = "\"\x01\"" := by
  refine ⟨?_, ?_, by decide, by decide, by decide, by decide⟩
  · intro s
    show ("\"" ++ String.mk (escapeChars s.data) ++ "\"").data = _
    rw [str_data_append, str_data_append, escapeChars_flatMap]
    rfl
  · intro s
    simp [encode_canonical, _encode_canonical, listSink, String.join]

/-- C6: the incremental form of the encoder (streaming chunks to a
sink) produces, concatenated, exactly the string the one-shot
`encode_canonical` returns, with the same error otherwise. -/
theorem claim_C6 : ∀ v : PyVal,
    Except.mapError (EncodeError.couldNotEncode v)
      (_encode_canonical (fun acc chunk => acc ++ chunk) v "") =
    encode_canonical v := by
  intro v
  rw [encVal_eq_concat]
  unfold encVal encode_canonical
  cases _encode_canonical listSink v [] <;>
    simp [Except.map, Except.mapError]

/-- C7: `encode_canonical` returns normally for every value inside
the Value model and fails with a `FormatError` naming the offending
value for every value outside it (a float or a byte string at any
depth). -/
theorem claim_C7 : ∀ v : PyVal,
    (encodable v = true → ∃ s, encode_canonical v = .ok s) ∧
    (encodable v = false → ∃ w, isNonModelValue w = true ∧
      encode_canonical v = .error (.couldNotEncode v (.cannotEncode w))) := by
  intro v
  obtain ⟨hok, herr⟩ := encVal_total v
  constructor
  · intro h
    obtain ⟨s, hs⟩ := hok h
    exact ⟨s, (encode_canonical_ok_iff v s).mpr hs⟩
  · intro h
    obtain ⟨w, hw, he⟩ := herr h
    refine ⟨w, hw, ?_⟩
    unfold encode_canonical
    unfold encVal at he
    cases hu : _encode_canonical listSink v [] with
    | ok l => rw [hu] at he; simp [Except.map] at he
    | error e =>
      rw [hu] at he
      simp only [Except.map] at he
      injection he with he2
      rw [he2]

/-- C7 witness: a float fails with the `FormatError` naming it. -/
theorem claim_C7_witness : ∃ w, isNonModelValue w = true ∧
    encode_canonical (.float "0.5") =
      .error (.couldNotEncode (.float "0.5") (.cannotEncode w)) :=
  (claim_C7 (.float "0.5")).2 rfl

/-- C1 counterexample: on a keyid mismatch the code raises
`VerificationError` — the "could not be performed" kind — not the
`UnverifiedSignatureError` mismatch kind the claim names. -/
theorem claim_C1_counterexample :
    isUnverifiedOutcome (verify_signature true stubOracle
      { keyid := "aa", keytype := "ed25519", scheme := "ed25519",
        keyval := [("public", PyVal.str "df")], unrecognized_fields := [] }
      { keyid := "bb", signature := "abcd" } []) = false ∧
    isVerificationErrorOutcome (verify_signature true stubOracle
      { keyid := "aa", keytype := "ed25519", scheme := "ed25519",
        keyval := [("public", PyVal.str "df")], unrecognized_fields := [] }
      { keyid := "bb", signature := "abcd" } []) = true :=
  ⟨rfl, rfl⟩

/-- C1 (amended): if the keyid of the signature differs from that of
the key,
`verify_signature` fails with `VerificationError` (the "verification
could not be performed" kind, from a `ValueError` cause), and the
identity check precedes all cryptographic work: the outcome is a
fixed value, independent of the crypto collaborators. -/
theorem claim_C1 : ∀ (avail : Bool) (O O2 : CryptoOracle) (K : SSlibKey)
    (S : Signature) (D : List Nat), S.keyid ≠ K.keyid →
    verify_signature avail O K S D =
      .verificationError ""
        ("keyid mismatch: \x27key id: " ++ K.keyid ++
         " != signature keyid: " ++ S.keyid ++ "\x27") ∧
    verify_signature avail O K S D = verify_signature avail O2 K S D := by
  intro avail O O2 K S D h
  constructor <;> simp [verify_signature, h]

/-- C1 witness at a concrete mismatching pair. -/
theorem claim_C1_witness :
    verify_signature true stubOracle
      { keyid := "aa", keytype := "ed25519", scheme := "ed25519",
        keyval := [("public", PyVal.str "df")], unrecognized_fields := [] }
      { keyid := "bb", signature := "abcd" } [] =
      .verificationError ""
        "keyid mismatch: \x27key id: aa != signature keyid: bb\x27" ∧
    verify_signature true stubOracle
      { keyid := "aa", keytype := "ed25519", scheme := "ed25519",
        keyval := [("public", PyVal.str "df")], unrecognized_fields := [] }
      { keyid := "bb", signature := "abcd" } [] =
    verify_signature true stubOracle
      { keyid := "aa", keytype := "ed25519", scheme := "ed25519",
        keyval := [("public", PyVal.str "df")], unrecognized_fields := [] }
      { keyid := "bb", signature := "abcd" } [] :=
  claim_C1 true stubOracle stubOracle
    { keyid := "aa", keytype := "ed25519", scheme := "ed25519",
      keyval := [("public", PyVal.str "df")], unrecognized_fields := [] }
    { keyid := "bb", signature := "abcd" } [] (by decide)

/-- C2: without the pyca/cryptography provider, only the scheme
`ed25519` may use the pure-software fallback verifier: for every
other scheme the call never succeeds, consults no crypto collaborator
at all, and (when the identity check passes and the signature
hex-decodes) fails with the "verification could not be performed"
kind carrying the import-error cause; for `ed25519` the outcome is
exactly that of the pure-Python `checkvalid` collaborator. -/
theorem claim_C2 : ∀ (O O2 : CryptoOracle) (K : SSlibKey) (S : Signature)
    (D : List Nat),
    (K.scheme ≠ "ed25519" →
      verify_signature false O K S D ≠ .ok ∧
      verify_signature false O K S D = verify_signature false O2 K S D ∧
      (S.keyid = K.keyid → (fromhex S.signature).isSome = true →
        verify_signature false O K S D =
          .verificationError (unknownMsg K.keyid) cryptoImportError)) ∧
    (K.scheme = "ed25519" → S.keyid = K.keyid →
      ∀ (bs pb : List Nat) (pubHex : String),
        fromhex S.signature = some bs →
        publicStr K.keyval = some pubHex →
        fromhex pubHex = some pb →
        verify_signature false O K S D =
          handleResult K.keyid (O.checkvalid bs D pb)) := by
  intro O O2 K S D
  constructor
  · intro hs
    by_cases hk : S.keyid ≠ K.keyid
    · refine ⟨?_, ?_, fun heq _ => absurd heq hk⟩
      · simp [verify_signature, hk]
      · simp [verify_signature, hk]
    · push_neg at hk
      cases hhex : fromhex S.signature with
      | none =>
        refine ⟨?_, ?_, ?_⟩
        · simp [verify_signature, hk, hhex]
        · simp [verify_signature, hk, hhex]
        · intro _ hsome
          simp at hsome
      | some bs =>
        refine ⟨?_, ?_, fun _ _ => ?_⟩
        · simp [verify_signature, hk, hhex, hs]
        · simp [verify_signature, hk, hhex, hs]
        · simp [verify_signature, hk, hhex, hs]
  · intro hs hk bs pb pubHex hhex hpub hpb
    simp [verify_signature, hk, hhex, hs, hpub, hpb]

/-- C2 witness: an RSA-scheme key without the provider fails with the
"could not be performed" kind. -/
theorem claim_C2_witness :
    verify_signature false stubOracle
      { keyid := "aa", keytype := "rsa", scheme := "rsassa-pss-sha256",
        keyval := [("public", PyVal.str "pem")], unrecognized_fields := [] }
      { keyid := "aa", signature := "abcd" } [] =
      .verificationError (unknownMsg "aa") cryptoImportError :=
  ((claim_C2 stubOracle stubOracle
      { keyid := "aa", keytype := "rsa", scheme := "rsassa-pss-sha256",
        keyval := [("public", PyVal.str "pem")], unrecognized_fields := [] }
      { keyid := "aa", signature := "abcd" } []).1
    (by decide)).2.2 rfl rfl

/-- C3 (evaluating the code at the failing input): a signature whose
hex field does not decode — `"abc"` even satisfies the wire-level
`HEX_SCHEMA` — makes `verify_signature` raise the `ValueError` from
`bytes.fromhex` uncaught, an outcome that is neither of the two
advertised error kinds. -/
theorem claim_C3 :
    verify_signature true stubOracle
      { keyid := "aa", keytype := "ed25519", scheme := "ed25519",
        keyval := [("public", PyVal.str "df")], unrecognized_fields := [] }
      { keyid := "aa", signature := "abc" } [] =
      .pyValueError "non-hexadecimal number found in fromhex() arg" ∧
    isUnverifiedOutcome (verify_signature true stubOracle
      { keyid := "aa", keytype := "ed25519", scheme := "ed25519",
        keyval := [("public", PyVal.str "df")], unrecognized_fields := [] }
      { keyid := "aa", signature := "abc" } []) = false ∧
    isVerificationErrorOutcome (verify_signature true stubOracle
      { keyid := "aa", keytype := "ed25519", scheme := "ed25519",
        keyval := [("public", PyVal.str "df")], unrecognized_fields := [] }
      { keyid := "aa", signature := "abc" } []) = false :=
  ⟨rfl, rfl, rfl⟩

theorem aerase_sublist (k : String) :
    ∀ d : List (String × PyVal), (aerase k d).Sublist d := by
  intro d
  induction d with
  | nil => exact List.Sublist.refl []
  | cons kv rest ih =>
    simp only [aerase]
    by_cases h : kv.1 = k
    · rw [if_pos h]
      exact List.Sublist.cons _ (List.Sublist.refl rest)
    · rw [if_neg h]
      exact List.Sublist.cons₂ _ ih

theorem aerase_keys_nodup (k : String) (d : List (String × PyVal))
    (h : (d.map Prod.fst).Nodup) :
    ((aerase k d).map Prod.fst).Nodup :=
  h.sublist ((aerase_sublist k d).map Prod.fst)

/-- C8: deserialization followed by serialization is lossless: every
field of the dict other than `keytype`/`scheme`/`keyval` survives the
round trip with its original value, and those three re-emit the
original values. -/
theorem claim_C8 : ∀ (keyid : String) (d : List (String × PyVal))
    (k : SSlibKey) (drest : List (String × PyVal)) (name : String)
    (w : PyVal), (d.map Prod.fst).Nodup →
    SSlibKey.from_dict keyid d = .ok (k, drest) →
    name ≠ "keytype" → name ≠ "scheme" → name ≠ "keyval" →
    alookup name d = some w →
    alookup name (SSlibKey.to_dict k) = some w ∧
    alookup "keytype" (SSlibKey.to_dict k) = alookup "keytype" d ∧
    alookup "scheme" (SSlibKey.to_dict k) = alookup "scheme" d ∧
    alookup "keyval" (SSlibKey.to_dict k) = alookup "keyval" d := by
  intro keyid d k drest name w hnd hfd hn1 hn2 hn3 hw
  obtain ⟨h1, h2, h3, h4, h5, _⟩ := from_dict_ok hfd
  have hnd1 := aerase_keys_nodup "keytype" d hnd
  have hnd2 := aerase_keys_nodup "scheme" _ hnd1
  -- the three base entries of `_to_dict`
  have hbase : ∀ v : PyVal,
      alookup name [("keytype", v), ("scheme", PyVal.str k.scheme),
        ("keyval", PyVal.dict k.keyval)] = Option.none := by
    intro v
    simp only [alookup]
    rw [if_neg (fun he : "keytype" = name => hn1 he.symm),
      if_neg (fun he : "scheme" = name => hn2 he.symm),
      if_neg (fun he : "keyval" = name => hn3 he.symm)]
  -- the unrecognized fields are exactly the dict minus the three pops
  have hu : k.unrecognized_fields =
      aerase "keyval" (aerase "scheme" (aerase "keytype" d)) := by
    rw [h5, h4]
  -- lookups of other names pass through the three erasures
  have hthrough : alookup name k.unrecognized_fields = some w := by
    rw [hu, alookup_aerase_ne _ _ hn3, alookup_aerase_ne _ _ hn2,
      alookup_aerase_ne _ _ hn1, hw]
  -- keytype lookup in the remainder is gone
  have hkt_none : alookup "keytype" k.unrecognized_fields = Option.none := by
    rw [hu,
      alookup_aerase_ne _ _ (by decide : ("keytype" : String) ≠ "keyval"),
      alookup_aerase_ne _ _ (by decide : ("keytype" : String) ≠ "scheme")]
    exact alookup_aerase_self "keytype" d hnd
  have hsc_none : alookup "scheme" k.unrecognized_fields = Option.none := by
    rw [hu,
      alookup_aerase_ne _ _ (by decide : ("scheme" : String) ≠ "keyval")]
    exact alookup_aerase_self "scheme" _ hnd1
  have hkv_none : alookup "keyval" k.unrecognized_fields = Option.none := by
    rw [hu]
    exact alookup_aerase_self "keyval" _ hnd2
  have habsent : ∀ kv ∈ [("keytype", PyVal.str k.keytype),
      ("scheme", PyVal.str k.scheme), ("keyval", PyVal.dict k.keyval)],
      kv.1 ≠ name := by
    intro kv hkv
    rcases List.mem_cons.mp hkv with h | hkv2
    · rw [h]; exact fun he => hn1 he.symm
    · rcases List.mem_cons.mp hkv2 with h | hkv3
      · rw [h]; exact fun he => hn2 he.symm
      · rcases List.mem_cons.mp hkv3 with h | hkv4
        · rw [h]; exact fun he => hn3 he.symm
        · cases hkv4
  constructor
  · -- the unrecognized field survives
    simp only [SSlibKey.to_dict, dictMerge, List.map_cons, List.map_nil,
      hkt_none, hsc_none, hkv_none]
    rw [alookup_append_of_absent name _ _ habsent]
    rw [alookup_filter name _ (by
      intro kv hkv
      rw [hkv, hbase (PyVal.str k.keytype)]
      rfl)]
    exact hthrough
  have hrhs2 : alookup "scheme" d = some (PyVal.str k.scheme) := by
    rw [← alookup_aerase_ne "keytype" "scheme" (by decide) d]
    exact h2
  have hrhs3 : alookup "keyval" d = some (PyVal.dict k.keyval) := by
    rw [← alookup_aerase_ne "keytype" "keyval" (by decide) d,
      ← alookup_aerase_ne "scheme" "keyval" (by decide) (aerase "keytype" d)]
    exact h3
  refine ⟨?_, ?_, ?_⟩
  · -- keytype
    rw [h1]
    simp only [SSlibKey.to_dict, dictMerge, List.map_cons, List.map_nil,
      hkt_none, hsc_none, hkv_none]
    simp [alookup]
  · -- scheme
    rw [hrhs2]
    simp only [SSlibKey.to_dict, dictMerge, List.map_cons, List.map_nil,
      hkt_none, hsc_none, hkv_none]
    simp [alookup]
  · -- keyval
    rw [hrhs3]
    simp only [SSlibKey.to_dict, dictMerge, List.map_cons, List.map_nil,
      hkt_none, hsc_none, hkv_none]
    simp [alookup]

/-- C8 witness: a concrete software-key dict with a `custom` field. -/
theorem claim_C8_witness :
    alookup "custom" (SSlibKey.to_dict
      { keyid := "kid", keytype := "ed25519", scheme := "ed25519",
        keyval := [("public", PyVal.str "beef")],
        unrecognized_fields := [("custom", PyVal.str "x")] }) =
      some (PyVal.str "x") ∧
    alookup "keytype" (SSlibKey.to_dict
      { keyid := "kid", keytype := "ed25519", scheme := "ed25519",
        keyval := [("public", PyVal.str "beef")],
        unrecognized_fields := [("custom", PyVal.str "x")] }) =
      alookup "keytype"
        [("keytype", PyVal.str "ed25519"), ("scheme", PyVal.str "ed25519"),
         ("keyval", PyVal.dict [("public", PyVal.str "beef")]),
         ("custom", PyVal.str "x")] ∧
    alookup "scheme" (SSlibKey.to_dict
      { keyid := "kid", keytype := "ed25519", scheme := "ed25519",
        keyval := [("public", PyVal.str "beef")],
        unrecognized_fields := [("custom", PyVal.str "x")] }) =
      alookup "scheme"
        [("keytype", PyVal.str "ed25519"), ("scheme", PyVal.str "ed25519"),
         ("keyval", PyVal.dict [("public", PyVal.str "beef")]),
         ("custom", PyVal.str "x")] ∧
    alookup "keyval" (SSlibKey.to_dict
      { keyid := "kid", keytype := "ed25519", scheme := "ed25519",
        keyval := [("public", PyVal.str "beef")],
        unrecognized_fields := [("custom", PyVal.str "x")] }) =
      alookup "keyval"
        [("keytype", PyVal.str "ed25519"), ("scheme", PyVal.str "ed25519"),
         ("keyval", PyVal.dict [("public", PyVal.str "beef")]),
         ("custom", PyVal.str "x")] :=
  claim_C8 "kid"
    [("keytype", PyVal.str "ed25519"), ("scheme", PyVal.str "ed25519"),
     ("keyval", PyVal.dict [("public", PyVal.str "beef")]),
     ("custom", PyVal.str "x")]
    { keyid := "kid", keytype := "ed25519", scheme := "ed25519",
      keyval := [("public", PyVal.str "beef")],
      unrecognized_fields := [("custom", PyVal.str "x")] }
    [("custom", PyVal.str "x")] "custom" (PyVal.str "x")
    (by decide) rfl (by decide) (by decide) (by decide) rfl

/-- C9 counterexample: `from_dict` mutates the dict passed by the
caller — after the call the dict has lost its `keytype`, `scheme`
and `keyval` entries, so it is not left unchanged. -/
theorem claim_C9_counterexample :
    (SSlibKey.from_dict "id"
      [("keytype", PyVal.str "ed25519"), ("scheme", PyVal.str "ed25519"),
       ("keyval", PyVal.dict [("public", PyVal.str "beef")]),
       ("custom", PyVal.str "x")]).map (fun p => p.2) =
      .ok [("custom", PyVal.str "x")] ∧
    [("custom", PyVal.str "x")] ≠
      [("keytype", PyVal.str "ed25519"), ("scheme", PyVal.str "ed25519"),
       ("keyval", PyVal.dict [("public", PyVal.str "beef")]),
       ("custom", PyVal.str "x")] := by
  refine ⟨rfl, fun h => ?_⟩
  exact absurd (congrArg List.length h) (by decide)

/-- C9 (amended): the only side effect of `from_dict` on its input
is to pop the `keytype`, `scheme` and `keyval` entries: the dict of
the caller afterwards holds exactly the unrecognized fields, which
the new key aliases. -/
theorem claim_C9 : ∀ (keyid : String) (d : List (String × PyVal))
    (k : SSlibKey) (drest : List (String × PyVal)),
    SSlibKey.from_dict keyid d = .ok (k, drest) →
    drest = aerase "keyval" (aerase "scheme" (aerase "keytype" d)) ∧
    k.unrecognized_fields = drest := by
  intro keyid d k drest h
  obtain ⟨_, _, _, h4, h5, _⟩ := from_dict_ok h
  exact ⟨h4, h5⟩

/-- C9 witness at the concrete dict of the counterexample. -/
theorem claim_C9_witness :
    [("custom", PyVal.str "x")] =
      aerase "keyval" (aerase "scheme" (aerase "keytype"
        [("keytype", PyVal.str "ed25519"), ("scheme", PyVal.str "ed25519"),
         ("keyval", PyVal.dict [("public", PyVal.str "beef")]),
         ("custom", PyVal.str "x")])) ∧
    ({ keyid := "id", keytype := "ed25519", scheme := "ed25519",
       keyval := [("public", PyVal.str "beef")],
       unrecognized_fields := [("custom", PyVal.str "x")] } :
        SSlibKey).unrecognized_fields = [("custom", PyVal.str "x")] :=
  claim_C9 "id"
    [("keytype", PyVal.str "ed25519"), ("scheme", PyVal.str "ed25519"),
     ("keyval", PyVal.dict [("public", PyVal.str "beef")]),
     ("custom", PyVal.str "x")]
    { keyid := "id", keytype := "ed25519", scheme := "ed25519",
      keyval := [("public", PyVal.str "beef")],
      unrecognized_fields := [("custom", PyVal.str "x")] }
    [("custom", PyVal.str "x")] rfl

/-- C10: the `UNIX_TIMESTAMP` schema accepts exactly the integers in
`[0, 2147483647]` (accepting both endpoints and rejecting both
neighbours), `unix_timestamp_to_datetime` applies that check before
any conversion — failing with `FormatError` on out-of-range or
non-integer input — and interprets the timestamp in UTC (via the
civil-from-epoch conversion, matching the doctest of the module,
`1445455680 ↦ 2015-10-21 19:28:00`). -/
theorem claim_C10 :
    (∀ n : Int, UNIX_TIMESTAMP_SCHEMA.matches (.int n) = true ↔
      0 ≤ n ∧ n ≤ 2147483647) ∧
    UNIX_TIMESTAMP_SCHEMA.matches (.int 0) = true ∧
    UNIX_TIMESTAMP_SCHEMA.matches (.int 2147483647) = true ∧
    UNIX_TIMESTAMP_SCHEMA.matches (.int (-1)) = false ∧
    UNIX_TIMESTAMP_SCHEMA.matches (.int 2147483648) = false ∧
    (∀ v : PyVal, UNIX_TIMESTAMP_SCHEMA.matches v = false →
      unix_timestamp_to_datetime v =
        .error (.formatError
          "timestamp does not match UNIX_TIMESTAMP_SCHEMA")) ∧
    (∀ n : Int, 0 ≤ n → n ≤ 2147483647 →
      unix_timestamp_to_datetime (.int n) = .ok (gmtime n.toNat)) ∧
    unix_timestamp_to_datetime (.int 1445455680) =
      .ok ⟨2015, 10, 21, 19, 28, 0⟩ ∧
    unix_timestamp_to_datetime (.int 0) = .ok ⟨1970, 1, 1, 0, 0, 0⟩ := by
  have hiff : ∀ n : Int, UNIX_TIMESTAMP_SCHEMA.matches (.int n) = true ↔
      0 ≤ n ∧ n ≤ 2147483647 := by
    intro n
    simp [IntegerSchema.matches, UNIX_TIMESTAMP_SCHEMA]
  refine ⟨hiff, by decide, by decide, by decide, by decide, ?_, ?_,
    by rfl, by rfl⟩
  · intro v h
    unfold unix_timestamp_to_datetime
    rw [h]
    cases v <;> rfl
  · intro n h0 h1
    unfold unix_timestamp_to_datetime
    rw [(hiff n).mpr ⟨h0, h1⟩]
    simp

/-- C10 witness: a boolean input is rejected with `FormatError`. -/
theorem claim_C10_witness :
    unix_timestamp_to_datetime (.bool true) =
      .error (.formatError
        "timestamp does not match UNIX_TIMESTAMP_SCHEMA") :=
  claim_C10.2.2.2.2.2.1 (PyVal.bool true) rfl

end SSL
